import Mathlib

/-!
# Verification of the `zip-eq` iterator adapters

Shallow embedding of the `zip-eq` Rust crate (files `src/lib.rs`,
`src/eager.rs`, `src/lazy.rs`).  Inner iterators are modelled as the list of
their remaining elements; iterator-protocol methods taking `&mut self` return
the new state explicitly.  A Rust panic (`panic_different_len`) and the
debug-mode `unreachable!` of the eager adapter are modelled as the two
constructors of `ZipErr`, and fallible operations return `Except ZipErr`.
-/

/-- The two abnormal-termination modes of the crate: the reported
length-mismatch panic (`panic_different_len` in `lib.rs`) and the
internal-consistency fault of the eager adapter (`unreachable_unchecked` in
`eager.rs`, an `unreachable!` assertion failure in debug builds). -/
inductive ZipErr : Type where
  | panicDifferentLen : ZipErr
  | unreachableState : ZipErr
deriving DecidableEq, Repr

namespace Iter

/-- `Iterator::next` on a list iterator: head element and remaining tail. -/
def next : List α → Option α × List α
  | [] => (none, [])
  | x :: xs => (some x, xs)

/-- `DoubleEndedIterator::next_back` on a list iterator: last element and the
remaining front part. -/
def next_back (l : List α) : Option α × List α :=
  (l.getLast?, l.dropLast)

/-- `Iterator::nth n` on a list iterator: skips `n` elements, returns the
element at index `n` (if any) and the remainder past it. -/
def nth : Nat → List α → Option α × List α
  | _, [] => (none, [])
  | 0, x :: xs => (some x, xs)
  | n + 1, _ :: xs => nth n xs

/-- `DoubleEndedIterator::nth_back n`: `nth n` from the back. -/
def nth_back (n : Nat) (l : List α) : Option α × List α :=
  let p := nth n l.reverse
  (p.1, p.2.reverse)

/-- `Iterator::last` on a list iterator (consumes the iterator). -/
def last (l : List α) : Option α :=
  l.getLast?

/-- `Iterator::count` on a list iterator. -/
def count (l : List α) : Nat :=
  l.length

/-- `ExactSizeIterator::len` on a list iterator. -/
def len (l : List α) : Nat :=
  l.length

/-- `Iterator::size_hint` on a list iterator: exact bounds. -/
def size_hint (l : List α) : Nat × Option Nat :=
  (l.length, some l.length)

end Iter

/-- `size_hint_impl` from `lib.rs`: combines two `(lower, upper)` size
estimates of the inner iterators into the estimate of the zipped iterator. -/
def size_hint_impl (a b : Nat × Option Nat) : Nat × Option Nat :=
  (a.1.max b.1,
    match a.2, b.2 with
    | some a, some b => some (a.min b)
    | some a, none => some a
    | none, some b => some b
    | none, none => none)

/-- `ZipEqEagerCheck` from `eager.rs`: the adapter whose equal-length
precondition was established at construction. -/
structure ZipEqEagerCheck (α β : Type) where
  a : List α
  b : List β
deriving DecidableEq, Repr

/-- `ZipEqLazyCheck` from `lazy.rs`: the adapter that checks lengths during
iteration. -/
structure ZipEqLazyCheck (α β : Type) where
  a : List α
  b : List β
deriving DecidableEq, Repr

namespace Eager

/-- `both_or_none` from `eager.rs`: both `some` pairs up, both `none` ends the
iteration, and a mismatch hits `unreachable_unchecked`. -/
def both_or_none (t : Option T) (u : Option U) : Except ZipErr (Option (T × U)) :=
  match t, u with
  | some x, some y => .ok (some (x, y))
  | none, none => .ok none
  | _, _ => .error .unreachableState

/-- `ZipEqEagerCheck::fold` from `eager.rs`, unfolded for list inner
iterators: `self.a.fold` drives the elements of `a` front to back and the
closure pulls `b.next()` once per element, hitting `unreachable_unchecked`
when `b` is exhausted first. -/
def fold (f : I → α × β → I) : I → List α → List β → Except ZipErr I
  | init, [], _ => .ok init
  | _, _ :: _, [] => .error .unreachableState
  | init, x :: xs, y :: ys => fold f (f init (x, y)) xs ys

/-- `ZipEqEagerCheck::try_fold` from `eager.rs`, unfolded for list inner
iterators with `Option` as the `Try` type: returns the fold outcome (`none`
when the closure short-circuited) together with the remaining states of both
inner iterators. -/
def try_fold (f : I → α × β → Option I) :
    I → List α → List β → Except ZipErr (Option I × List α × List β)
  | init, [], b => .ok (some init, [], b)
  | _, _ :: _, [] => .error .unreachableState
  | init, x :: xs, y :: ys =>
    match f init (x, y) with
    | none => .ok (none, xs, ys)
    | some i => try_fold f i xs ys

/-- `ZipEqEagerCheck::rfold` from `eager.rs`: `self.a.rfold` drives the
elements of `a` back to front, pulling `b.next_back()` once per element; this
is the forward fold over both reversed lists. -/
def rfold (f : I → α × β → I) (init : I) (a : List α) (b : List β) : Except ZipErr I :=
  fold f init a.reverse b.reverse

/-- `ZipEqEagerCheck::try_rfold` from `eager.rs`: the short-circuiting fold
driven from the back of both inner iterators. -/
def try_rfold (f : I → α × β → Option I) (init : I) (a : List α) (b : List β) :
    Except ZipErr (Option I × List α × List β) :=
  match try_fold f init a.reverse b.reverse with
  | .error e => .error e
  | .ok (r, a2, b2) => .ok (r, a2.reverse, b2.reverse)

end Eager

namespace ZipEqEagerCheck

/-- `ZipEqEagerCheck::next`: pull one element from each side and pair them. -/
def next (s : ZipEqEagerCheck α β) :
    Except ZipErr (Option (α × β) × ZipEqEagerCheck α β) :=
  let pa := Iter.next s.a
  let pb := Iter.next s.b
  (Eager.both_or_none pa.1 pb.1).map fun r => (r, ⟨pa.2, pb.2⟩)

/-- `ZipEqEagerCheck::size_hint`. -/
def size_hint (s : ZipEqEagerCheck α β) : Nat × Option Nat :=
  size_hint_impl (Iter.size_hint s.a) (Iter.size_hint s.b)

/-- `ZipEqEagerCheck::last` (consumes the adapter). -/
def last (s : ZipEqEagerCheck α β) : Except ZipErr (Option (α × β)) :=
  Eager.both_or_none (Iter.last s.a) (Iter.last s.b)

/-- `ZipEqEagerCheck::nth`. -/
def nth (n : Nat) (s : ZipEqEagerCheck α β) :
    Except ZipErr (Option (α × β) × ZipEqEagerCheck α β) :=
  let pa := Iter.nth n s.a
  let pb := Iter.nth n s.b
  (Eager.both_or_none pa.1 pb.1).map fun r => (r, ⟨pa.2, pb.2⟩)

/-- `ZipEqEagerCheck::fold` (consumes the adapter). -/
def fold (f : I → α × β → I) (init : I) (s : ZipEqEagerCheck α β) : Except ZipErr I :=
  Eager.fold f init s.a s.b

/-- `ZipEqEagerCheck::try_fold` (takes `&mut self`; the new state is
returned). -/
def try_fold (f : I → α × β → Option I) (init : I) (s : ZipEqEagerCheck α β) :
    Except ZipErr (Option I × ZipEqEagerCheck α β) :=
  (Eager.try_fold f init s.a s.b).map fun r => (r.1, ⟨r.2.1, r.2.2⟩)

/-- `ZipEqEagerCheck::next_back`. -/
def next_back (s : ZipEqEagerCheck α β) :
    Except ZipErr (Option (α × β) × ZipEqEagerCheck α β) :=
  let pa := Iter.next_back s.a
  let pb := Iter.next_back s.b
  (Eager.both_or_none pa.1 pb.1).map fun r => (r, ⟨pa.2, pb.2⟩)

/-- `ZipEqEagerCheck::nth_back`. -/
def nth_back (n : Nat) (s : ZipEqEagerCheck α β) :
    Except ZipErr (Option (α × β) × ZipEqEagerCheck α β) :=
  let pa := Iter.nth_back n s.a
  let pb := Iter.nth_back n s.b
  (Eager.both_or_none pa.1 pb.1).map fun r => (r, ⟨pa.2, pb.2⟩)

/-- `ZipEqEagerCheck::rfold` (consumes the adapter). -/
def rfold (f : I → α × β → I) (init : I) (s : ZipEqEagerCheck α β) : Except ZipErr I :=
  Eager.rfold f init s.a s.b

/-- `ZipEqEagerCheck::try_rfold` (takes `&mut self`). -/
def try_rfold (f : I → α × β → Option I) (init : I) (s : ZipEqEagerCheck α β) :
    Except ZipErr (Option I × ZipEqEagerCheck α β) :=
  (Eager.try_rfold f init s.a s.b).map fun r => (r.1, ⟨r.2.1, r.2.2⟩)

/-- `ExactSizeIterator::len` for `ZipEqEagerCheck`: the first inner
iterator's length. -/
def len (s : ZipEqEagerCheck α β) : Nat :=
  Iter.len s.a

end ZipEqEagerCheck

namespace Lazy

/-- `both_or_none` from `lazy.rs`: like the eager one, but a mismatch raises
the reported `panic_different_len` failure. -/
def both_or_none (t : Option T) (u : Option U) : Except ZipErr (Option (T × U)) :=
  match t, u with
  | some x, some y => .ok (some (x, y))
  | none, none => .ok none
  | _, _ => .error .panicDifferentLen

/-- `ZipEqLazyCheck::fold` from `lazy.rs`, unfolded for list inner iterators:
drives `a`, pulling `b.next()` per element; `panic_different_len` when `b`
runs out first. -/
def fold (f : I → α × β → I) : I → List α → List β → Except ZipErr I
  | init, [], _ => .ok init
  | _, _ :: _, [] => .error .panicDifferentLen
  | init, x :: xs, y :: ys => fold f (f init (x, y)) xs ys

/-- `ZipEqLazyCheck::try_fold` from `lazy.rs`, unfolded for list inner
iterators with `Option` as the `Try` type. -/
def try_fold (f : I → α × β → Option I) :
    I → List α → List β → Except ZipErr (Option I × List α × List β)
  | init, [], b => .ok (some init, [], b)
  | _, _ :: _, [] => .error .panicDifferentLen
  | init, x :: xs, y :: ys =>
    match f init (x, y) with
    | none => .ok (none, xs, ys)
    | some i => try_fold f i xs ys

/-- `ZipEqLazyCheck::rfold` from `lazy.rs`: fold from the back of both. -/
def rfold (f : I → α × β → I) (init : I) (a : List α) (b : List β) : Except ZipErr I :=
  fold f init a.reverse b.reverse

/-- `ZipEqLazyCheck::try_rfold` from `lazy.rs`. -/
def try_rfold (f : I → α × β → Option I) (init : I) (a : List α) (b : List β) :
    Except ZipErr (Option I × List α × List β) :=
  match try_fold f init a.reverse b.reverse with
  | .error e => .error e
  | .ok (r, a2, b2) => .ok (r, a2.reverse, b2.reverse)

end Lazy

namespace ZipEqLazyCheck

/-- `ZipEqLazyCheck::next`. -/
def next (s : ZipEqLazyCheck α β) :
    Except ZipErr (Option (α × β) × ZipEqLazyCheck α β) :=
  let pa := Iter.next s.a
  let pb := Iter.next s.b
  (Lazy.both_or_none pa.1 pb.1).map fun r => (r, ⟨pa.2, pb.2⟩)

/-- `ZipEqLazyCheck::size_hint`. -/
def size_hint (s : ZipEqLazyCheck α β) : Nat × Option Nat :=
  size_hint_impl (Iter.size_hint s.a) (Iter.size_hint s.b)

/-- `ZipEqLazyCheck::count` from `lazy.rs`: forwards `self.a.count()` with no
comparison against `b` at all; the return type records that this operation
has no failure path. -/
def count (s : ZipEqLazyCheck α β) : Nat :=
  Iter.count s.a

/-- `ZipEqLazyCheck::last` (consumes the adapter). -/
def last (s : ZipEqLazyCheck α β) : Except ZipErr (Option (α × β)) :=
  Lazy.both_or_none (Iter.last s.a) (Iter.last s.b)

/-- `ZipEqLazyCheck::nth`. -/
def nth (n : Nat) (s : ZipEqLazyCheck α β) :
    Except ZipErr (Option (α × β) × ZipEqLazyCheck α β) :=
  let pa := Iter.nth n s.a
  let pb := Iter.nth n s.b
  (Lazy.both_or_none pa.1 pb.1).map fun r => (r, ⟨pa.2, pb.2⟩)

/-- `ZipEqLazyCheck::fold` (consumes the adapter). -/
def fold (f : I → α × β → I) (init : I) (s : ZipEqLazyCheck α β) : Except ZipErr I :=
  Lazy.fold f init s.a s.b

/-- `ZipEqLazyCheck::try_fold` (takes `&mut self`). -/
def try_fold (f : I → α × β → Option I) (init : I) (s : ZipEqLazyCheck α β) :
    Except ZipErr (Option I × ZipEqLazyCheck α β) :=
  (Lazy.try_fold f init s.a s.b).map fun r => (r.1, ⟨r.2.1, r.2.2⟩)

/-- `ZipEqLazyCheck::next_back`. -/
def next_back (s : ZipEqLazyCheck α β) :
    Except ZipErr (Option (α × β) × ZipEqLazyCheck α β) :=
  let pa := Iter.next_back s.a
  let pb := Iter.next_back s.b
  (Lazy.both_or_none pa.1 pb.1).map fun r => (r, ⟨pa.2, pb.2⟩)

/-- `ZipEqLazyCheck::nth_back`. -/
def nth_back (n : Nat) (s : ZipEqLazyCheck α β) :
    Except ZipErr (Option (α × β) × ZipEqLazyCheck α β) :=
  let pa := Iter.nth_back n s.a
  let pb := Iter.nth_back n s.b
  (Lazy.both_or_none pa.1 pb.1).map fun r => (r, ⟨pa.2, pb.2⟩)

/-- `ZipEqLazyCheck::rfold` (consumes the adapter). -/
def rfold (f : I → α × β → I) (init : I) (s : ZipEqLazyCheck α β) : Except ZipErr I :=
  Lazy.rfold f init s.a s.b

/-- `ZipEqLazyCheck::try_rfold` (takes `&mut self`). -/
def try_rfold (f : I → α × β → Option I) (init : I) (s : ZipEqLazyCheck α β) :
    Except ZipErr (Option I × ZipEqLazyCheck α β) :=
  (Lazy.try_rfold f init s.a s.b).map fun r => (r.1, ⟨r.2.1, r.2.2⟩)

/-- `ExactSizeIterator::len` for `ZipEqLazyCheck` (`lazy.rs`, line 136): the
first inner iterator's length, with no reference to `b`. -/
def len (s : ZipEqLazyCheck α β) : Nat :=
  Iter.len s.a

end ZipEqLazyCheck

namespace ZipEq

/-- `ZipEq::zip_eq_unchecked` from `lib.rs`: wraps both iterators with no
comparison; the caller asserts equal lengths. -/
def zip_eq_unchecked (a : List α) (b : List β) : ZipEqEagerCheck α β :=
  ⟨a, b⟩

/-- `ZipEq::zip_eq_eager` from `lib.rs`: compares the two exact lengths and
raises `panic_different_len` before constructing the adapter when they
differ. -/
def zip_eq_eager (a : List α) (b : List β) : Except ZipErr (ZipEqEagerCheck α β) :=
  if Iter.len a ≠ Iter.len b then .error .panicDifferentLen
  else .ok ⟨a, b⟩

/-- `ZipEq::zip_eq_lazy` from `lib.rs`: wraps both iterators with no check of
any kind; construction always succeeds. -/
def zip_eq_lazy (a : List α) (b : List β) : ZipEqLazyCheck α β :=
  ⟨a, b⟩

end ZipEq

namespace Eager

/-- Driving the eager adapter by repeated `next` calls, combining each
produced pair with the accumulator; stops when `next` yields `none`.  The
case split is exactly that of `ZipEqEagerCheck.next`
(see `fold_via_next_eq_step`). -/
def fold_via_next (f : I → α × β → I) : I → List α → List β → Except ZipErr I
  | init, [], [] => .ok init
  | _, [], _ :: _ => .error .unreachableState
  | _, _ :: _, [] => .error .unreachableState
  | init, x :: xs, y :: ys => fold_via_next f (f init (x, y)) xs ys

/-- Driving the eager adapter by repeated `next` calls with a
short-circuiting accumulator; returns the outcome together with both
remaining inner states. -/
def try_fold_via_next (f : I → α × β → Option I) :
    I → List α → List β → Except ZipErr (Option I × List α × List β)
  | init, [], [] => .ok (some init, [], [])
  | _, [], _ :: _ => .error .unreachableState
  | _, _ :: _, [] => .error .unreachableState
  | init, x :: xs, y :: ys =>
    match f init (x, y) with
    | none => .ok (none, xs, ys)
    | some i => try_fold_via_next f i xs ys

/-- `n` successive `ZipEqEagerCheck.next` calls, collecting the produced
pairs in order together with the final adapter state. -/
def collect : Nat → ZipEqEagerCheck α β →
    Except ZipErr (List (α × β) × ZipEqEagerCheck α β)
  | 0, s => .ok ([], s)
  | n + 1, s =>
    match ZipEqEagerCheck.next s with
    | .error e => .error e
    | .ok (none, s2) => collect n s2
    | .ok (some p, s2) => (collect n s2).map fun r => (p :: r.1, r.2)

/-- One state-mutating protocol operation of the eager adapter, executed
without hitting the unreachable branch. -/
inductive Step : ZipEqEagerCheck α β → ZipEqEagerCheck α β → Prop where
  | next {s s2 : ZipEqEagerCheck α β} {r : Option (α × β)} :
      ZipEqEagerCheck.next s = .ok (r, s2) → Step s s2
  | next_back {s s2 : ZipEqEagerCheck α β} {r : Option (α × β)} :
      ZipEqEagerCheck.next_back s = .ok (r, s2) → Step s s2
  | nth {s s2 : ZipEqEagerCheck α β} {r : Option (α × β)} (n : Nat) :
      ZipEqEagerCheck.nth n s = .ok (r, s2) → Step s s2
  | nth_back {s s2 : ZipEqEagerCheck α β} {r : Option (α × β)} (n : Nat) :
      ZipEqEagerCheck.nth_back n s = .ok (r, s2) → Step s s2
  | try_fold {s s2 : ZipEqEagerCheck α β} {I : Type} {r : Option I}
      (f : I → α × β → Option I) (init : I) :
      ZipEqEagerCheck.try_fold f init s = .ok (r, s2) → Step s s2
  | try_rfold {s s2 : ZipEqEagerCheck α β} {I : Type} {r : Option I}
      (f : I → α × β → Option I) (init : I) :
      ZipEqEagerCheck.try_rfold f init s = .ok (r, s2) → Step s s2

/-- States of the eager adapter reachable through any sequence of
state-mutating protocol operations. -/
def Reach {α β : Type} : ZipEqEagerCheck α β → ZipEqEagerCheck α β → Prop :=
  Relation.ReflTransGen Step

/-- Every protocol operation of the eager adapter completes without
executing the unreachable branch. -/
def opsOk {α β : Type} (s : ZipEqEagerCheck α β) : Prop :=
  (∃ r, ZipEqEagerCheck.next s = .ok r) ∧
  (∃ r, ZipEqEagerCheck.next_back s = .ok r) ∧
  (∀ n, ∃ r, ZipEqEagerCheck.nth n s = .ok r) ∧
  (∀ n, ∃ r, ZipEqEagerCheck.nth_back n s = .ok r) ∧
  (∃ r, ZipEqEagerCheck.last s = .ok r) ∧
  (∀ (I : Type) (f : I → α × β → I) (init : I),
    ∃ r, ZipEqEagerCheck.fold f init s = .ok r) ∧
  (∀ (I : Type) (f : I → α × β → Option I) (init : I),
    ∃ r, ZipEqEagerCheck.try_fold f init s = .ok r) ∧
  (∀ (I : Type) (f : I → α × β → I) (init : I),
    ∃ r, ZipEqEagerCheck.rfold f init s = .ok r) ∧
  (∀ (I : Type) (f : I → α × β → Option I) (init : I),
    ∃ r, ZipEqEagerCheck.try_rfold f init s = .ok r)

end Eager

namespace Lazy

/-- Driving the lazy adapter by repeated `next` calls, combining each
produced pair with the accumulator. -/
def fold_via_next (f : I → α × β → I) : I → List α → List β → Except ZipErr I
  | init, [], [] => .ok init
  | _, [], _ :: _ => .error .panicDifferentLen
  | _, _ :: _, [] => .error .panicDifferentLen
  | init, x :: xs, y :: ys => fold_via_next f (f init (x, y)) xs ys

/-- Driving the lazy adapter by repeated `next` calls with a
short-circuiting accumulator. -/
def try_fold_via_next (f : I → α × β → Option I) :
    I → List α → List β → Except ZipErr (Option I × List α × List β)
  | init, [], [] => .ok (some init, [], [])
  | _, [], _ :: _ => .error .panicDifferentLen
  | _, _ :: _, [] => .error .panicDifferentLen
  | init, x :: xs, y :: ys =>
    match f init (x, y) with
    | none => .ok (none, xs, ys)
    | some i => try_fold_via_next f i xs ys

/-- `n` successive `ZipEqLazyCheck.next` calls, collecting the produced
pairs in order together with the final adapter state. -/
def collect : Nat → ZipEqLazyCheck α β →
    Except ZipErr (List (α × β) × ZipEqLazyCheck α β)
  | 0, s => .ok ([], s)
  | n + 1, s =>
    match ZipEqLazyCheck.next s with
    | .error e => .error e
    | .ok (none, s2) => collect n s2
    | .ok (some p, s2) => (collect n s2).map fun r => (p :: r.1, r.2)

end Lazy

/-! ## Helper lemmas -/

theorem Iter.nth_eq {α : Type} :
    ∀ (n : Nat) (l : List α), Iter.nth n l = (l[n]?, l.drop (n + 1))
  | _, [] => by simp [Iter.nth]
  | 0, x :: xs => by simp [Iter.nth]
  | n + 1, x :: xs => by
    simp [Iter.nth, Iter.nth_eq n xs]

theorem zip_reverse_eq {α β : Type} :
    ∀ (a : List α) (b : List β), a.length = b.length →
      a.reverse.zip b.reverse = (a.zip b).reverse := by
  intro a
  induction a with
  | nil =>
    intro b h
    cases b with
    | nil => rfl
    | cons y ys => simp at h
  | cons x xs ih =>
    intro b h
    cases b with
    | nil => simp at h
    | cons y ys =>
      have h2 : xs.length = ys.length := by simpa using h
      calc (x :: xs).reverse.zip (y :: ys).reverse
          = (xs.reverse ++ [x]).zip (ys.reverse ++ [y]) := by simp
        _ = xs.reverse.zip ys.reverse ++ [x].zip [y] :=
            List.zip_append (by simp [h2])
        _ = (xs.zip ys).reverse ++ [(x, y)] := by rw [ih ys h2]; rfl
        _ = ((x, y) :: xs.zip ys).reverse := by simp

theorem Eager.fold_eq_ok {α β I : Type} (f : I → α × β → I) :
    ∀ (init : I) (a : List α) (b : List β), a.length = b.length →
      Eager.fold f init a b = .ok ((a.zip b).foldl f init)
  | init, [], [], _ => rfl
  | _, [], _ :: _, h => by simp at h
  | _, _ :: _, [], h => by simp at h
  | init, x :: xs, y :: ys, h => by
    have h2 : xs.length = ys.length := by simpa using h
    simp [Eager.fold, Eager.fold_eq_ok f (f init (x, y)) xs ys h2]

theorem Lazy.fold_eq_ok_lazy {α β I : Type} (f : I → α × β → I) :
    ∀ (init : I) (a : List α) (b : List β), a.length = b.length →
      Lazy.fold f init a b = .ok ((a.zip b).foldl f init)
  | init, [], [], _ => rfl
  | _, [], _ :: _, h => by simp at h
  | _, _ :: _, [], h => by simp at h
  | init, x :: xs, y :: ys, h => by
    have h2 : xs.length = ys.length := by simpa using h
    simp [Lazy.fold, Lazy.fold_eq_ok_lazy f (f init (x, y)) xs ys h2]

theorem Lazy.fold_error {α β I : Type} (f : I → α × β → I) :
    ∀ (init : I) (a : List α) (b : List β), b.length < a.length →
      Lazy.fold f init a b = .error .panicDifferentLen
  | _, [], _, h => by simp at h
  | _, _ :: _, [], _ => rfl
  | init, x :: xs, y :: ys, h => by
    have h2 : ys.length < xs.length := by simpa using h
    simp [Lazy.fold, Lazy.fold_error f (f init (x, y)) xs ys h2]

theorem Eager.fold_eq_via {α β I : Type} (f : I → α × β → I) :
    ∀ (init : I) (a : List α) (b : List β), a.length = b.length →
      Eager.fold f init a b = Eager.fold_via_next f init a b
  | _, [], [], _ => rfl
  | _, [], _ :: _, h => by simp at h
  | _, _ :: _, [], h => by simp at h
  | init, x :: xs, y :: ys, h => by
    have h2 : xs.length = ys.length := by simpa using h
    simp [Eager.fold, Eager.fold_via_next,
      Eager.fold_eq_via f (f init (x, y)) xs ys h2]

theorem Lazy.fold_eq_via_lazy {α β I : Type} (f : I → α × β → I) :
    ∀ (init : I) (a : List α) (b : List β), a.length = b.length →
      Lazy.fold f init a b = Lazy.fold_via_next f init a b
  | _, [], [], _ => rfl
  | _, [], _ :: _, h => by simp at h
  | _, _ :: _, [], h => by simp at h
  | init, x :: xs, y :: ys, h => by
    have h2 : xs.length = ys.length := by simpa using h
    simp [Lazy.fold, Lazy.fold_via_next,
      Lazy.fold_eq_via_lazy f (f init (x, y)) xs ys h2]

theorem Eager.try_fold_eq_via {α β I : Type} (f : I → α × β → Option I) :
    ∀ (init : I) (a : List α) (b : List β), a.length = b.length →
      Eager.try_fold f init a b = Eager.try_fold_via_next f init a b
  | _, [], [], _ => rfl
  | _, [], _ :: _, h => by simp at h
  | _, _ :: _, [], h => by simp at h
  | init, x :: xs, y :: ys, h => by
    have h2 : xs.length = ys.length := by simpa using h
    cases hf : f init (x, y) with
    | none => simp [Eager.try_fold, Eager.try_fold_via_next, hf]
    | some i =>
      simp [Eager.try_fold, Eager.try_fold_via_next, hf,
        Eager.try_fold_eq_via f i xs ys h2]

theorem Lazy.try_fold_eq_via_lazy {α β I : Type} (f : I → α × β → Option I) :
    ∀ (init : I) (a : List α) (b : List β), a.length = b.length →
      Lazy.try_fold f init a b = Lazy.try_fold_via_next f init a b
  | _, [], [], _ => rfl
  | _, [], _ :: _, h => by simp at h
  | _, _ :: _, [], h => by simp at h
  | init, x :: xs, y :: ys, h => by
    have h2 : xs.length = ys.length := by simpa using h
    cases hf : f init (x, y) with
    | none => simp [Lazy.try_fold, Lazy.try_fold_via_next, hf]
    | some i =>
      simp [Lazy.try_fold, Lazy.try_fold_via_next, hf,
        Lazy.try_fold_eq_via_lazy f i xs ys h2]

theorem Eager.try_fold_ok {α β I : Type} (f : I → α × β → Option I) :
    ∀ (init : I) (a : List α) (b : List β), a.length = b.length →
      ∃ r a2 b2, Eager.try_fold f init a b = .ok (r, a2, b2) ∧
        a2.length = b2.length
  | init, [], [], _ => ⟨some init, [], [], rfl, rfl⟩
  | _, [], _ :: _, h => by simp at h
  | _, _ :: _, [], h => by simp at h
  | init, x :: xs, y :: ys, h => by
    have h2 : xs.length = ys.length := by simpa using h
    cases hf : f init (x, y) with
    | none => exact ⟨none, xs, ys, by simp [Eager.try_fold, hf], h2⟩
    | some i =>
      obtain ⟨r, a2, b2, heq, hl⟩ := Eager.try_fold_ok f i xs ys h2
      exact ⟨r, a2, b2, by simp [Eager.try_fold, hf, heq], hl⟩

theorem Eager.next_cons {α β : Type} (x : α) (y : β) (xs : List α) (ys : List β) :
    ZipEqEagerCheck.next ⟨x :: xs, y :: ys⟩ = .ok (some (x, y), ⟨xs, ys⟩) :=
  rfl

theorem Lazy.next_cons_lazy {α β : Type} (x : α) (y : β) (xs : List α) (ys : List β) :
    ZipEqLazyCheck.next ⟨x :: xs, y :: ys⟩ = .ok (some (x, y), ⟨xs, ys⟩) :=
  rfl

theorem Lazy.next_mismatch {α β : Type} (a : List α) (b : List β)
    (h : ¬(a = [] ↔ b = [])) :
    ZipEqLazyCheck.next ⟨a, b⟩ = .error .panicDifferentLen := by
  cases a with
  | nil =>
    cases b with
    | nil => exact absurd (by simp) h
    | cons y ys => rfl
  | cons x xs =>
    cases b with
    | nil => rfl
    | cons y ys => exact absurd (by simp) h

theorem Eager.collect_take {α β : Type} :
    ∀ (k : Nat) (a : List α) (b : List β), k ≤ a.length → k ≤ b.length →
      Eager.collect k ⟨a, b⟩ = .ok ((a.zip b).take k, ⟨a.drop k, b.drop k⟩)
  | 0, a, b, _, _ => by simp [Eager.collect]
  | k + 1, [], _, ha, _ => by simp at ha
  | k + 1, _ :: _, [], _, hb => by simp at hb
  | k + 1, x :: xs, y :: ys, ha, hb => by
    have ha2 : k ≤ xs.length := by simpa using ha
    have hb2 : k ≤ ys.length := by simpa using hb
    simp [Eager.collect, Eager.next_cons, Except.map,
      Eager.collect_take k xs ys ha2 hb2]

theorem Eager.next_nil {α β : Type} :
    ZipEqEagerCheck.next (⟨[], []⟩ : ZipEqEagerCheck α β) = .ok (none, ⟨[], []⟩) :=
  rfl

theorem Lazy.next_nil_lazy {α β : Type} :
    ZipEqLazyCheck.next (⟨[], []⟩ : ZipEqLazyCheck α β) = .ok (none, ⟨[], []⟩) :=
  rfl

theorem except_map_pair_ok {X C : Type} {E : Except ZipErr X} {c : C} {r : X} {s2 : C}
    (heq : (E.map fun r => (r, c)) = .ok (r, s2)) : s2 = c := by
  cases E with
  | error e => simp [Except.map] at heq
  | ok v =>
    simp [Except.map] at heq
    exact heq.2.symm

theorem Iter.next_snd_length {α : Type} (l : List α) :
    (Iter.next l).2.length = l.length - 1 := by
  cases l <;> simp [Iter.next]

theorem Iter.next_back_snd_length {α : Type} (l : List α) :
    (Iter.next_back l).2.length = l.length - 1 := by
  simp [Iter.next_back]

theorem Iter.nth_snd_length {α : Type} (n : Nat) (l : List α) :
    (Iter.nth n l).2.length = l.length - (n + 1) := by
  simp [Iter.nth_eq]

theorem Iter.nth_back_snd_length {α : Type} (n : Nat) (l : List α) :
    (Iter.nth_back n l).2.length = l.length - (n + 1) := by
  simp [Iter.nth_back, Iter.nth_eq]

theorem Lazy.collect_take_lazy {α β : Type} :
    ∀ (k : Nat) (a : List α) (b : List β), k ≤ a.length → k ≤ b.length →
      Lazy.collect k ⟨a, b⟩ = .ok ((a.zip b).take k, ⟨a.drop k, b.drop k⟩)
  | 0, a, b, _, _ => by simp [Lazy.collect]
  | k + 1, [], _, ha, _ => by simp at ha
  | k + 1, _ :: _, [], _, hb => by simp at hb
  | k + 1, x :: xs, y :: ys, ha, hb => by
    have ha2 : k ≤ xs.length := by simpa using ha
    have hb2 : k ≤ ys.length := by simpa using hb
    simp [Lazy.collect, Lazy.next_cons_lazy, Except.map,
      Lazy.collect_take_lazy k xs ys ha2 hb2]

theorem Eager.opsOk_of_inv {α β : Type} (s : ZipEqEagerCheck α β)
    (h : s.a.length = s.b.length) : Eager.opsOk s := by
  obtain ⟨a, b⟩ := s
  simp only at h
  refine ⟨?_, ?_, ?_, ?_, ?_, ?_, ?_, ?_, ?_⟩
  · cases a with
    | nil =>
      cases b with
      | nil => exact ⟨_, rfl⟩
      | cons y ys => simp at h
    | cons x xs =>
      cases b with
      | nil => simp at h
      | cons y ys => exact ⟨_, rfl⟩
  · cases a with
    | nil =>
      cases b with
      | nil => exact ⟨_, rfl⟩
      | cons y ys => simp at h
    | cons x xs =>
      cases b with
      | nil => simp at h
      | cons y ys => exact ⟨_, rfl⟩
  · intro n
    by_cases hn : n < a.length
    · have hnb : n < b.length := h ▸ hn
      simp only [ZipEqEagerCheck.nth, Iter.nth_eq,
        List.getElem?_eq_getElem hn, List.getElem?_eq_getElem hnb]
      exact ⟨_, rfl⟩
    · have hna : a.length ≤ n := Nat.le_of_not_lt hn
      have hnb : b.length ≤ n := h ▸ hna
      simp only [ZipEqEagerCheck.nth, Iter.nth_eq,
        List.getElem?_eq_none hna, List.getElem?_eq_none hnb]
      exact ⟨_, rfl⟩
  · intro n
    by_cases hn : n < a.length
    · have hna : n < a.reverse.length := by simpa using hn
      have hnb : n < b.reverse.length := by simp; omega
      simp only [ZipEqEagerCheck.nth_back, Iter.nth_back, Iter.nth_eq,
        List.getElem?_eq_getElem hna, List.getElem?_eq_getElem hnb]
      exact ⟨_, rfl⟩
    · have hna : a.reverse.length ≤ n := by simpa using Nat.le_of_not_lt hn
      have hnb : b.reverse.length ≤ n := by simp; omega
      simp only [ZipEqEagerCheck.nth_back, Iter.nth_back, Iter.nth_eq,
        List.getElem?_eq_none hna, List.getElem?_eq_none hnb]
      exact ⟨_, rfl⟩
  · cases a with
    | nil =>
      cases b with
      | nil => exact ⟨_, rfl⟩
      | cons y ys => simp at h
    | cons x xs =>
      cases b with
      | nil => simp at h
      | cons y ys => exact ⟨_, rfl⟩
  · intro I f init
    exact ⟨_, Eager.fold_eq_ok f init a b h⟩
  · intro I f init
    obtain ⟨r, a2, b2, heq, -⟩ := Eager.try_fold_ok f init a b h
    simp only [ZipEqEagerCheck.try_fold, heq]
    exact ⟨_, rfl⟩
  · intro I f init
    exact ⟨_, Eager.fold_eq_ok f init a.reverse b.reverse (by simp [h])⟩
  · intro I f init
    obtain ⟨r, a2, b2, heq, -⟩ :=
      Eager.try_fold_ok f init a.reverse b.reverse (by simp [h])
    simp only [ZipEqEagerCheck.try_rfold, Eager.try_rfold, heq]
    exact ⟨_, rfl⟩

theorem Eager.step_preserves {α β : Type} {s s2 : ZipEqEagerCheck α β}
    (h : s.a.length = s.b.length) (st : Eager.Step s s2) :
    s2.a.length = s2.b.length := by
  cases st with
  | next heq =>
    have h2 := except_map_pair_ok heq
    subst h2
    simp [Iter.next_snd_length, h]
  | next_back heq =>
    have h2 := except_map_pair_ok heq
    subst h2
    simp [Iter.next_back_snd_length, h]
  | nth n heq =>
    have h2 := except_map_pair_ok heq
    subst h2
    simp [Iter.nth_snd_length, h]
  | nth_back n heq =>
    have h2 := except_map_pair_ok heq
    subst h2
    simp [Iter.nth_back_snd_length, h]
  | try_fold f init heq =>
    obtain ⟨r2, a2, b2, heq2, hl⟩ := Eager.try_fold_ok f init s.a s.b h
    rw [ZipEqEagerCheck.try_fold, heq2] at heq
    simp [Except.map] at heq
    rw [← heq.2]
    exact hl
  | try_rfold f init heq =>
    obtain ⟨r2, a2, b2, heq2, hl⟩ :=
      Eager.try_fold_ok f init s.a.reverse s.b.reverse (by simp [h])
    rw [ZipEqEagerCheck.try_rfold, Eager.try_rfold, heq2] at heq
    simp [Except.map] at heq
    rw [← heq.2]
    simp [hl]

theorem Eager.reach_inv {α β : Type} {s0 s : ZipEqEagerCheck α β}
    (h : s0.a.length = s0.b.length) (hr : Eager.Reach s0 s) :
    s.a.length = s.b.length := by
  induction hr with
  | refl => exact h
  | tail _ st ih => exact Eager.step_preserves ih st

/-! ## Claim theorems -/

/-- C1: for equal-length inputs `A` and `B`, both the eager-checked and the
lazy-checked adapters produce, under repeated `next`, exactly the ordered
pairs `(A[i], B[i])` (the list `A.zip B`), reaching the empty state after
`len` steps, and the step after the `len`-th pair returns end-of-sequence. -/
theorem zipEq_equal_length_next_sequence {α β : Type} (a : List α) (b : List β)
    (h : a.length = b.length) :
    Eager.collect a.length ⟨a, b⟩ = .ok (a.zip b, ⟨[], []⟩) ∧
    ZipEqEagerCheck.next (⟨[], []⟩ : ZipEqEagerCheck α β) = .ok (none, ⟨[], []⟩) ∧
    Lazy.collect a.length ⟨a, b⟩ = .ok (a.zip b, ⟨[], []⟩) ∧
    ZipEqLazyCheck.next (⟨[], []⟩ : ZipEqLazyCheck α β) = .ok (none, ⟨[], []⟩) := by
  have h1 := Eager.collect_take a.length a b le_rfl (le_of_eq h)
  have h2 := Lazy.collect_take_lazy a.length a b le_rfl (le_of_eq h)
  have htake : (a.zip b).take a.length = a.zip b :=
    List.take_of_length_le (by rw [List.length_zip, h]; exact inf_le_left)
  have hda : a.drop a.length = [] := List.drop_eq_nil_of_le le_rfl
  have hdb : b.drop a.length = [] := List.drop_eq_nil_of_le (le_of_eq h.symm)
  rw [htake, hda, hdb] at h1 h2
  exact ⟨h1, Eager.next_nil, h2, Lazy.next_nil_lazy⟩

theorem zipEq_equal_length_next_sequence_witness :
    Eager.collect 2 ⟨[1, 2], [3, 4]⟩ = .ok ([(1, 3), (2, 4)], ⟨[], []⟩) ∧
    ZipEqEagerCheck.next (⟨[], []⟩ : ZipEqEagerCheck Nat Nat) = .ok (none, ⟨[], []⟩) ∧
    Lazy.collect 2 ⟨[1, 2], [3, 4]⟩ = .ok ([(1, 3), (2, 4)], ⟨[], []⟩) ∧
    ZipEqLazyCheck.next (⟨[], []⟩ : ZipEqLazyCheck Nat Nat) = .ok (none, ⟨[], []⟩) :=
  zipEq_equal_length_next_sequence [1, 2] [3, 4] rfl

/-- C2: for inputs of different lengths, eager-checked construction raises
the length-mismatch failure at construction, lazy-checked construction
succeeds unchanged, the lazy adapter yields exactly
`min (len A) (len B)` pairs (all of `A.zip B`), and the very next step at
index `min (len A) (len B)` raises the length-mismatch failure. -/
theorem zipEq_length_mismatch_eager_vs_lazy {α β : Type} (a : List α) (b : List β)
    (h : a.length ≠ b.length) :
    ZipEq.zip_eq_eager a b = .error .panicDifferentLen ∧
    ZipEq.zip_eq_lazy a b = ⟨a, b⟩ ∧
    (a.zip b).length = min a.length b.length ∧
    Lazy.collect (min a.length b.length) ⟨a, b⟩ =
      .ok (a.zip b,
        ⟨a.drop (min a.length b.length), b.drop (min a.length b.length)⟩) ∧
    ZipEqLazyCheck.next
        ⟨a.drop (min a.length b.length), b.drop (min a.length b.length)⟩ =
      .error .panicDifferentLen := by
  refine ⟨?_, rfl, by rw [List.length_zip], ?_, ?_⟩
  · simp [ZipEq.zip_eq_eager, Iter.len, h]
  · have hc := Lazy.collect_take_lazy (min a.length b.length) a b
      (Nat.min_le_left _ _) (Nat.min_le_right _ _)
    rwa [List.take_of_length_le
      (le_of_eq (by rw [List.length_zip]))] at hc
  · apply Lazy.next_mismatch
    simp only [List.drop_eq_nil_iff]
    omega

theorem zipEq_length_mismatch_eager_vs_lazy_witness :
    ZipEq.zip_eq_eager [1, 2, 3] [3, 4] = .error .panicDifferentLen ∧
    ZipEqLazyCheck.next (⟨[3], []⟩ : ZipEqLazyCheck Nat Nat) =
      .error .panicDifferentLen :=
  ⟨(zipEq_length_mismatch_eager_vs_lazy [1, 2, 3] [3, 4] (by decide)).1,
   (zipEq_length_mismatch_eager_vs_lazy [1, 2, 3] [3, 4] (by decide)).2.2.2.2⟩

/-- C7: `size_hint_impl` is a total function and returns the maximum of the
lower bounds, together with the minimum of the upper bounds when both are
known, the known one when only one is, and unknown otherwise. -/
theorem size_hint_impl_correct (la lb ua ub : Nat) :
    size_hint_impl (la, some ua) (lb, some ub) = (max la lb, some (min ua ub)) ∧
    size_hint_impl (la, some ua) (lb, none) = (max la lb, some ua) ∧
    size_hint_impl (la, none) (lb, some ub) = (max la lb, some ub) ∧
    size_hint_impl (la, none) (lb, none) = (max la lb, none) :=
  ⟨rfl, rfl, rfl, rfl⟩

/-- C8: fused behaviour — once `next` returns end-of-sequence, every later
`next` on either adapter returns end-of-sequence again with the state
unchanged. -/
theorem zipEq_fused {α β : Type} :
    (∀ s s2 : ZipEqEagerCheck α β, ZipEqEagerCheck.next s = .ok (none, s2) →
      ZipEqEagerCheck.next s2 = .ok (none, s2)) ∧
    (∀ s s2 : ZipEqLazyCheck α β, ZipEqLazyCheck.next s = .ok (none, s2) →
      ZipEqLazyCheck.next s2 = .ok (none, s2)) := by
  constructor
  · intro s s2 heq
    obtain ⟨a, b⟩ := s
    cases a with
    | nil =>
      cases b with
      | nil =>
        rw [Eager.next_nil] at heq
        injection heq with hp
        have h2 : (⟨[], []⟩ : ZipEqEagerCheck α β) = s2 := congrArg Prod.snd hp
        rw [← h2]
        exact Eager.next_nil
      | cons y ys =>
        simp [ZipEqEagerCheck.next, Iter.next, Eager.both_or_none, Except.map] at heq
    | cons x xs =>
      cases b with
      | nil =>
        simp [ZipEqEagerCheck.next, Iter.next, Eager.both_or_none, Except.map] at heq
      | cons y ys =>
        rw [Eager.next_cons] at heq
        injection heq with hp
        exact absurd (congrArg Prod.fst hp) (by simp)
  · intro s s2 heq
    obtain ⟨a, b⟩ := s
    cases a with
    | nil =>
      cases b with
      | nil =>
        rw [Lazy.next_nil_lazy] at heq
        injection heq with hp
        have h2 : (⟨[], []⟩ : ZipEqLazyCheck α β) = s2 := congrArg Prod.snd hp
        rw [← h2]
        exact Lazy.next_nil_lazy
      | cons y ys =>
        simp [ZipEqLazyCheck.next, Iter.next, Lazy.both_or_none, Except.map] at heq
    | cons x xs =>
      cases b with
      | nil =>
        simp [ZipEqLazyCheck.next, Iter.next, Lazy.both_or_none, Except.map] at heq
      | cons y ys =>
        rw [Lazy.next_cons_lazy] at heq
        injection heq with hp
        exact absurd (congrArg Prod.fst hp) (by simp)

theorem zipEq_fused_witness :
    ZipEqEagerCheck.next (⟨[], []⟩ : ZipEqEagerCheck Nat Nat) = .ok (none, ⟨[], []⟩) ∧
    ZipEqLazyCheck.next (⟨[], []⟩ : ZipEqLazyCheck Nat Nat) = .ok (none, ⟨[], []⟩) :=
  ⟨zipEq_fused.1 ⟨[], []⟩ ⟨[], []⟩ rfl, zipEq_fused.2 ⟨[], []⟩ ⟨[], []⟩ rfl⟩

/-- C10: on the lazy adapter, `nth n` with `n` at least the remaining length
of both inner iterators returns end-of-sequence without raising the
length-mismatch failure, even when the two remaining lengths differ. -/
theorem lazy_nth_masks_divergence {α β : Type} (a : List α) (b : List β)
    (n : Nat) (h1 : a.length ≤ n) (h2 : b.length ≤ n) :
    ZipEqLazyCheck.nth n ⟨a, b⟩ = .ok (none, ⟨[], []⟩) := by
  simp only [ZipEqLazyCheck.nth, Iter.nth_eq, List.getElem?_eq_none h1,
    List.getElem?_eq_none h2,
    List.drop_eq_nil_of_le (show a.length ≤ n + 1 by omega),
    List.drop_eq_nil_of_le (show b.length ≤ n + 1 by omega)]
  rfl

theorem lazy_nth_masks_divergence_witness :
    ZipEqLazyCheck.nth 3 (⟨[1, 2, 3], [4, 5]⟩ : ZipEqLazyCheck Nat Nat) =
      .ok (none, ⟨[], []⟩) :=
  lazy_nth_masks_divergence [1, 2, 3] [4, 5] 3 (by decide) (by decide)

/-- C3 counterexample: on state `a = [1,2,3]`, `b = []` the first inner
iterator produces values while the second is exhausted (as `next` on the same
state shows by raising the length-mismatch failure), yet `count` returns the
plain value `3` — its type has no failure path at all, because the source
forwards `self.a.count()` with no check. -/
theorem lazy_count_unchecked_cex :
    ZipEqLazyCheck.count (⟨[1, 2, 3], []⟩ : ZipEqLazyCheck Nat Nat) = 3 ∧
    ZipEqLazyCheck.next (⟨[1, 2, 3], []⟩ : ZipEqLazyCheck Nat Nat) =
      .error .panicDifferentLen :=
  ⟨rfl, rfl⟩

/-- C3 (amended): every lazy operation except `count` — step-forward,
step-backward, last, skip-by-offset (forward and backward), and the
forward/reverse bulk folds — raises the length-mismatch failure at the first
step where one inner iterator produces a value while the other is exhausted;
`count`, however, forwards the first inner iterator's count with no check. -/
theorem lazy_mismatch_check_amended {α β : Type} (a : List α) (b : List β) :
    (¬(a = [] ↔ b = []) →
      ZipEqLazyCheck.next ⟨a, b⟩ = .error .panicDifferentLen) ∧
    (¬(a = [] ↔ b = []) →
      ZipEqLazyCheck.next_back ⟨a, b⟩ = .error .panicDifferentLen) ∧
    (¬(a = [] ↔ b = []) →
      ZipEqLazyCheck.last ⟨a, b⟩ = .error .panicDifferentLen) ∧
    (∀ n, ¬(n < a.length ↔ n < b.length) →
      ZipEqLazyCheck.nth n ⟨a, b⟩ = .error .panicDifferentLen) ∧
    (∀ n, ¬(n < a.length ↔ n < b.length) →
      ZipEqLazyCheck.nth_back n ⟨a, b⟩ = .error .panicDifferentLen) ∧
    (∀ (I : Type) (f : I → α × β → I) (init : I), b.length < a.length →
      ZipEqLazyCheck.fold f init ⟨a, b⟩ = .error .panicDifferentLen) ∧
    (∀ (I : Type) (f : I → α × β → I) (init : I), b.length < a.length →
      ZipEqLazyCheck.rfold f init ⟨a, b⟩ = .error .panicDifferentLen) ∧
    ZipEqLazyCheck.count ⟨a, b⟩ = a.length := by
  refine ⟨Lazy.next_mismatch a b, ?_, ?_, ?_, ?_, ?_, ?_, rfl⟩
  · intro h
    cases a with
    | nil =>
      cases b with
      | nil => exact absurd (by simp) h
      | cons y ys => rfl
    | cons x xs =>
      cases b with
      | nil => rfl
      | cons y ys => exact absurd (by simp) h
  · intro h
    cases a with
    | nil =>
      cases b with
      | nil => exact absurd (by simp) h
      | cons y ys => rfl
    | cons x xs =>
      cases b with
      | nil => rfl
      | cons y ys => exact absurd (by simp) h
  · intro n h
    by_cases hn : n < a.length
    · have hb : ¬n < b.length := fun hb => h ⟨fun _ => hb, fun _ => hn⟩
      simp only [ZipEqLazyCheck.nth, Iter.nth_eq, List.getElem?_eq_getElem hn,
        List.getElem?_eq_none (Nat.le_of_not_lt hb)]
      rfl
    · have hb : n < b.length := by
        by_contra hb
        exact h (iff_of_false hn hb)
      simp only [ZipEqLazyCheck.nth, Iter.nth_eq,
        List.getElem?_eq_none (Nat.le_of_not_lt hn), List.getElem?_eq_getElem hb]
      rfl
  · intro n h
    by_cases hn : n < a.length
    · have hb : ¬n < b.length := fun hb => h ⟨fun _ => hb, fun _ => hn⟩
      have hna : n < a.reverse.length := by simpa using hn
      have hnb : b.reverse.length ≤ n := by simpa using Nat.le_of_not_lt hb
      simp only [ZipEqLazyCheck.nth_back, Iter.nth_back, Iter.nth_eq,
        List.getElem?_eq_getElem hna, List.getElem?_eq_none hnb]
      rfl
    · have hb : n < b.length := by
        by_contra hb
        exact h (iff_of_false hn hb)
      have hna : a.reverse.length ≤ n := by simpa using Nat.le_of_not_lt hn
      have hnb : n < b.reverse.length := by simpa using hb
      simp only [ZipEqLazyCheck.nth_back, Iter.nth_back, Iter.nth_eq,
        List.getElem?_eq_none hna, List.getElem?_eq_getElem hnb]
      rfl
  · intro I f init h
    exact Lazy.fold_error f init a b h
  · intro I f init h
    exact Lazy.fold_error f init a.reverse b.reverse (by simpa using h)

theorem lazy_mismatch_check_amended_witness :
    ZipEqLazyCheck.next (⟨[1], []⟩ : ZipEqLazyCheck Nat Nat) =
      .error .panicDifferentLen ∧
    ZipEqLazyCheck.nth 0 (⟨[1], []⟩ : ZipEqLazyCheck Nat Nat) =
      .error .panicDifferentLen ∧
    ZipEqLazyCheck.count (⟨[1], []⟩ : ZipEqLazyCheck Nat Nat) = 1 :=
  ⟨(lazy_mismatch_check_amended [1] []).1 (by simp),
   (lazy_mismatch_check_amended [1] []).2.2.2.1 0 (by simp),
   (lazy_mismatch_check_amended [1] []).2.2.2.2.2.2.2⟩

/-- C4 counterexample: at the state `a = [1,2,3]`, `b = []` the two inner
iterators report different exact lengths, yet the lazy adapter's `len` query
still forwards the first inner iterator's length `3` — so the query is not
guarded by the two lengths being equal. -/
theorem lazy_len_exactness_cex :
    ZipEqLazyCheck.len (⟨[1, 2, 3], []⟩ : ZipEqLazyCheck Nat Nat) = 3 ∧
    Iter.len ([1, 2, 3] : List Nat) ≠ Iter.len ([] : List Nat) :=
  ⟨rfl, by decide⟩

/-- C4 (amended): the lazy adapter's exact-length query always returns the
first inner iterator's length, regardless of the second inner iterator's
state. -/
theorem lazy_len_first_inner {α β : Type} (a : List α) (b b2 : List β) :
    ZipEqLazyCheck.len ⟨a, b⟩ = Iter.len a ∧
    ZipEqLazyCheck.len ⟨a, b⟩ = ZipEqLazyCheck.len ⟨a, b2⟩ :=
  ⟨rfl, rfl⟩

/-- C5: for both adapters over equal-length inputs, every accumulator and
initial value: the bulk folds (`fold`, and `try_fold` with a
short-circuiting accumulator) agree with driving the adapter by repeated
`next` calls, including the short-circuit point (the remaining states after
an early stop coincide as well). -/
theorem zipEq_fold_equiv_step {α β I J : Type} (f : I → α × β → I)
    (g : J → α × β → Option J) (i0 : I) (j0 : J) (a : List α) (b : List β)
    (h : a.length = b.length) :
    ZipEqEagerCheck.fold f i0 ⟨a, b⟩ = Eager.fold_via_next f i0 a b ∧
    ZipEqEagerCheck.try_fold g j0 ⟨a, b⟩ =
      (Eager.try_fold_via_next g j0 a b).map (fun r => (r.1, ⟨r.2.1, r.2.2⟩)) ∧
    ZipEqLazyCheck.fold f i0 ⟨a, b⟩ = Lazy.fold_via_next f i0 a b ∧
    ZipEqLazyCheck.try_fold g j0 ⟨a, b⟩ =
      (Lazy.try_fold_via_next g j0 a b).map (fun r => (r.1, ⟨r.2.1, r.2.2⟩)) := by
  refine ⟨Eager.fold_eq_via f i0 a b h, ?_, Lazy.fold_eq_via_lazy f i0 a b h, ?_⟩
  · rw [ZipEqEagerCheck.try_fold, Eager.try_fold_eq_via g j0 a b h]
  · rw [ZipEqLazyCheck.try_fold, Lazy.try_fold_eq_via_lazy g j0 a b h]

theorem zipEq_fold_equiv_step_witness :
    ZipEqEagerCheck.fold (fun i p => i + p.1 * p.2) 0 ⟨[1, 2], [3, 4]⟩ =
      Eager.fold_via_next (fun i p => i + p.1 * p.2) 0 [1, 2] [3, 4] ∧
    ZipEqEagerCheck.try_fold (fun i p => some (i + p.1 * p.2)) 0 ⟨[1, 2], [3, 4]⟩ =
      (Eager.try_fold_via_next (fun i p => some (i + p.1 * p.2)) 0 [1, 2] [3, 4]).map
        (fun r => (r.1, ⟨r.2.1, r.2.2⟩)) ∧
    ZipEqLazyCheck.fold (fun i p => i + p.1 * p.2) 0 ⟨[1, 2], [3, 4]⟩ =
      Lazy.fold_via_next (fun i p => i + p.1 * p.2) 0 [1, 2] [3, 4] ∧
    ZipEqLazyCheck.try_fold (fun i p => some (i + p.1 * p.2)) 0 ⟨[1, 2], [3, 4]⟩ =
      (Lazy.try_fold_via_next (fun i p => some (i + p.1 * p.2)) 0 [1, 2] [3, 4]).map
        (fun r => (r.1, ⟨r.2.1, r.2.2⟩)) :=
  zipEq_fold_equiv_step (fun i p => i + p.1 * p.2)
    (fun i p => some (i + p.1 * p.2)) 0 0 [1, 2] [3, 4] rfl

/-- The weighted accumulator of the concrete scenario in C6: the counter in
the first component plays the role of the mutable `factor`, incremented once
per call, and the two sums accumulate `factor * a` and `factor * b`. -/
def wAcc (s : Nat × Nat × Nat) (p : Nat × Nat) : Nat × Nat × Nat :=
  (s.1 + 1, s.2.1 + (s.1 + 1) * p.1, s.2.2 + (s.1 + 1) * p.2)

/-- C6: for equal-length inputs, both adapters' forward fold combines the
pairs of `A.zip B` in order and the reverse fold (`rfold`) combines exactly
the reversed sequence of those pairs — the mirror image of the forward
fold.  Instantiated at `A = [1,2]`, `B = [3,4]` with the weighted
accumulator `wAcc`, this gives the sums `(5, 11)` forward and `(4, 10)` in
reverse (see the witness). -/
theorem zipEq_rfold_mirror {α β I : Type} (f : I → α × β → I) (init : I)
    (a : List α) (b : List β) (h : a.length = b.length) :
    ZipEqEagerCheck.fold f init ⟨a, b⟩ = .ok ((a.zip b).foldl f init) ∧
    ZipEqEagerCheck.rfold f init ⟨a, b⟩ = .ok ((a.zip b).reverse.foldl f init) ∧
    ZipEqLazyCheck.fold f init ⟨a, b⟩ = .ok ((a.zip b).foldl f init) ∧
    ZipEqLazyCheck.rfold f init ⟨a, b⟩ = .ok ((a.zip b).reverse.foldl f init) := by
  have hr : a.reverse.length = b.reverse.length := by simp [h]
  refine ⟨Eager.fold_eq_ok f init a b h, ?_, Lazy.fold_eq_ok_lazy f init a b h, ?_⟩
  · show Eager.fold f init a.reverse b.reverse = _
    rw [Eager.fold_eq_ok f init a.reverse b.reverse hr, zip_reverse_eq a b h]
  · show Lazy.fold f init a.reverse b.reverse = _
    rw [Lazy.fold_eq_ok_lazy f init a.reverse b.reverse hr, zip_reverse_eq a b h]

theorem zipEq_rfold_mirror_witness :
    ZipEqEagerCheck.fold wAcc (0, 0, 0) ⟨[1, 2], [3, 4]⟩ = .ok (2, 5, 11) ∧
    ZipEqEagerCheck.rfold wAcc (0, 0, 0) ⟨[1, 2], [3, 4]⟩ = .ok (2, 4, 10) ∧
    ZipEqLazyCheck.fold wAcc (0, 0, 0) ⟨[1, 2], [3, 4]⟩ = .ok (2, 5, 11) ∧
    ZipEqLazyCheck.rfold wAcc (0, 0, 0) ⟨[1, 2], [3, 4]⟩ = .ok (2, 4, 10) := by
  obtain ⟨h1, h2, h3, h4⟩ := zipEq_rfold_mirror wAcc (0, 0, 0) [1, 2] [3, 4] rfl
  exact ⟨h1.trans (by rfl), h2.trans (by rfl), h3.trans (by rfl), h4.trans (by rfl)⟩

/-- C9: starting from an eager adapter whose two inner iterators have equal
remaining lengths (as `zip_eq_eager` establishes — last conjunct — or
`zip_eq_unchecked` asserts), every state reachable by any sequence of
state-mutating protocol operations keeps the lengths equal, and at every
such state every protocol operation (`next`, `next_back`, `nth`, `nth_back`,
`last`, `fold`, `try_fold`, `rfold`, `try_rfold`) completes without
executing the unreachable branch. -/
theorem eager_no_unreachable {α β : Type} (s0 s : ZipEqEagerCheck α β)
    (h : s0.a.length = s0.b.length) (hr : Eager.Reach s0 s) :
    s.a.length = s.b.length ∧ Eager.opsOk s ∧
    (∀ (a : List α) (b : List β) (t : ZipEqEagerCheck α β),
      ZipEq.zip_eq_eager a b = .ok t → t.a.length = t.b.length) := by
  have hinv := Eager.reach_inv h hr
  refine ⟨hinv, Eager.opsOk_of_inv s hinv, ?_⟩
  intro a b t ht
  rw [ZipEq.zip_eq_eager] at ht
  split at ht
  · exact absurd ht (by simp)
  · next hcond =>
    have h2 : (⟨a, b⟩ : ZipEqEagerCheck α β) = t := by
      injection ht
    rw [← h2]
    exact not_not.mp hcond

theorem eager_no_unreachable_witness :
    (⟨[1, 2], [3, 4]⟩ : ZipEqEagerCheck Nat Nat).a.length =
      (⟨[1, 2], [3, 4]⟩ : ZipEqEagerCheck Nat Nat).b.length ∧
    Eager.opsOk (⟨[1, 2], [3, 4]⟩ : ZipEqEagerCheck Nat Nat) ∧
    (∀ (a : List Nat) (b : List Nat) (t : ZipEqEagerCheck Nat Nat),
      ZipEq.zip_eq_eager a b = .ok t → t.a.length = t.b.length) :=
  eager_no_unreachable ⟨[1, 2], [3, 4]⟩ ⟨[1, 2], [3, 4]⟩ rfl
    Relation.ReflTransGen.refl
